import Mathlib

/-!
Verification of the Docker registry plugin (`plugin.go`) against its
natural-language specification.  The Go code is shallowly embedded:
strings are Lean `String`s (Go byte strings are ASCII throughout the
character classes of the validators), maps are association lists iterated in
list order, the command executor is a function from a command to an
optional error, and the orchestrator returns the trace of issued
commands together with the structured response and the (always nil)
Go error value.
-/

namespace DockerSpec

/-! ### String primitives (embeddings of the Go standard-library calls) -/

/-- UTF-8 byte size of a character, mirroring Go `len` on strings. -/
def utf8Sz (c : Char) : Nat :=
  if c.val < 0x80 then 1
  else if c.val < 0x800 then 2
  else if c.val < 0x10000 then 3
  else 4

/-- Go `len(s)`: the UTF-8 byte length of the string. -/
def goLen (s : String) : Nat :=
  s.data.foldl (fun n c => n + utf8Sz c) 0

/-- Decidable list-prefix test (Go `strings.HasPrefix` on char lists). -/
def isPfx : List Char → List Char → Bool
  | [], _ => true
  | _ :: _, [] => false
  | p :: ps, c :: cs => p = c && isPfx ps cs

/-- Substring occurrence test (Go `strings.Contains` on char lists). -/
def hasSub (pat : List Char) : List Char → Bool
  | [] => pat.isEmpty
  | c :: cs => isPfx pat (c :: cs) || hasSub pat cs

/-- Go `strings.HasPrefix`. -/
def strStarts (s pre : String) : Bool := isPfx pre.data s.data

/-- Go `strings.Contains`. -/
def strContains (s pat : String) : Bool := hasSub pat.data s.data

/-- Go `strings.TrimPrefix`: drops one occurrence of the prefix if present. -/
def trimPfx (s pre : String) : String :=
  if isPfx pre.data s.data then ⟨s.data.drop pre.data.length⟩ else s

/-- Fuel-driven worker for `goReplaceAll`; the fuel starts at the string
length, which suffices because each step consumes at least one character
of the subject when the pattern is non-empty. -/
def replFuel (pat rep : List Char) : Nat → List Char → List Char
  | 0, s => s
  | _ + 1, [] => []
  | fuel + 1, c :: cs =>
    if !pat.isEmpty && isPfx pat (c :: cs) then
      rep ++ replFuel pat rep fuel ((c :: cs).drop pat.length)
    else
      c :: replFuel pat rep fuel cs

/-- Go `strings.ReplaceAll`: left-to-right, non-overlapping replacement.
(The empty-pattern behaviour of Go, never exercised here, is not modelled.) -/
def goReplaceAll (s pat rep : String) : String :=
  ⟨replFuel pat.data rep.data s.data.length s.data⟩

/-- Split a character list on a separator; like Go `strings.Split`, the
result always has at least one (possibly empty) segment. -/
def splitSeg (sep : Char) : List Char → List (List Char)
  | [] => [[]]
  | c :: cs =>
    if c = sep then [] :: splitSeg sep cs
    else
      match splitSeg sep cs with
      | [] => [[c]]
      | s :: ss => (c :: s) :: ss

/-- Go `strings.Join(_, ",")`. -/
def joinComma : List String → String
  | [] => ""
  | [s] => s
  | s :: rest => s ++ "," ++ joinComma rest

/-- Decimal digit character. -/
def digitCh (n : Nat) : Char := Char.ofNat (48 + n)

/-- Fuel-driven decimal rendering worker. -/
def natToStrAux : Nat → Nat → List Char
  | 0, _ => []
  | fuel + 1, n =>
    if n < 10 then [digitCh n]
    else natToStrAux fuel (n / 10) ++ [digitCh (n % 10)]

/-- Decimal rendering of a natural number (Go `%d`). -/
def natToStr (n : Nat) : String := ⟨natToStrAux (n + 1) n⟩

/-! ### Character classes of the validation regexes -/

/-- Class `[a-zA-Z]`. -/
def isAlphaA (c : Char) : Bool :=
  ('a' ≤ c && c ≤ 'z') || ('A' ≤ c && c ≤ 'Z')

/-- Class `[0-9]`. -/
def isDigitA (c : Char) : Bool := '0' ≤ c && c ≤ '9'

/-- Class `[a-zA-Z0-9]`. -/
def isAlnumA (c : Char) : Bool := isAlphaA c || isDigitA c

/-- Character class of `imageNamePattern`: alphanumerics, dot, underscore,
slash, dash. -/
def isImageCh (c : Char) : Bool :=
  isAlnumA c || c = '.' || c = '_' || c = '/' || c = '-'

/-- Class `[a-zA-Z0-9._-]` of `tagPattern` and `labelKeyPattern`. -/
def isTagCh (c : Char) : Bool :=
  isAlnumA c || c = '.' || c = '_' || c = '-'

/-- Class `[a-zA-Z0-9.-]` of `registryPattern`. -/
def isRegCh (c : Char) : Bool := isAlnumA c || c = '.' || c = '-'

/-- Class `[a-zA-Z0-9_]` of `buildArgKeyPattern`. -/
def isArgCh (c : Char) : Bool := isAlnumA c || c = '_'

/-- Matcher for `^F M* L$`: the first character satisfies `F`, the last
satisfies `L`, everything between satisfies `M`; needs length at least 2. -/
def midLast (mid last_ : Char → Bool) : List Char → Bool
  | [] => false
  | [c] => last_ c
  | c :: rest => mid c && midLast mid last_ rest

/-- Anchored match of `^F M* L$`. -/
def matchFML (first mid last_ : Char → Bool) : List Char → Bool
  | [] => false
  | c :: rest => first c && midLast mid last_ rest

/-- Anchored match of `^F R*$`. -/
def matchHeadStar (first rest_ : Char → Bool) : List Char → Bool
  | [] => false
  | c :: rest => first c && rest.all rest_

/-- `imageNamePattern`: an alphanumeric, then image-name characters, then
an alphanumeric (anchored; so a match needs length at least 2). -/
def imageNameMatch (s : String) : Bool :=
  matchFML isAlnumA isImageCh isAlnumA s.data

/-- `tagPattern = ^[a-zA-Z0-9][a-zA-Z0-9._-]*$`. -/
def tagMatch (s : String) : Bool :=
  matchHeadStar isAlnumA isTagCh s.data

/-- `registryPattern = ^[a-zA-Z0-9][a-zA-Z0-9.-]*(:[0-9]+)?$`. -/
def registryMatch (s : String) : Bool :=
  match s.data with
  | [] => false
  | c :: rest =>
    isAlnumA c &&
    match rest.dropWhile isRegCh with
    | [] => true
    | ':' :: ds => !ds.isEmpty && ds.all isDigitA
    | _ => false

/-- `buildArgKeyPattern = ^[a-zA-Z_][a-zA-Z0-9_]*$`. -/
def buildArgKeyMatch (s : String) : Bool :=
  matchHeadStar (fun c => isAlphaA c || c = '_') isArgCh s.data

/-- `labelKeyPattern = ^[a-zA-Z][a-zA-Z0-9._-]*[a-zA-Z0-9]$`. -/
def labelKeyMatch (s : String) : Bool :=
  matchFML isAlphaA isTagCh isAlnumA s.data

/-! ### Validators (from `plugin.go`) -/

/-- Embeds `validateImageName`. -/
def validateImageName (name : String) : Option String :=
  if name = "" then some "image name cannot be empty"
  else if 256 < goLen name then some "image name too long (max 256 characters)"
  else if !imageNameMatch name then some "invalid image name: contains disallowed characters"
  else if strContains name ".." then some "image name cannot contain \x27..\x27"
  else none

/-- Embeds `validateTag`. -/
def validateTag (tag : String) : Option String :=
  if tag = "" then some "tag cannot be empty"
  else if 128 < goLen tag then some "tag too long (max 128 characters)"
  else if !tagMatch tag then some "invalid tag: contains disallowed characters"
  else none

/-- Embeds `validateRegistry`. -/
def validateRegistry (registry : String) : Option String :=
  if registry = "" || registry = "docker.io" then none
  else if 256 < goLen registry then some "registry URL too long"
  else if !registryMatch registry then some "invalid registry URL format"
  else none

/-- Embeds `validateBuildArgKey`. -/
def validateBuildArgKey (key : String) : Option String :=
  if !buildArgKeyMatch key then
    some "invalid build arg key: must be alphanumeric with underscores"
  else none

/-- Embeds `validateLabelKey`. -/
def validateLabelKey (key : String) : Option String :=
  if key = "" then some "label key cannot be empty"
  else if 256 < goLen key then some "label key too long (max 256 characters)"
  else if !labelKeyMatch key then
    some "invalid label key: must be alphanumeric with dots, dashes, or underscores"
  else none

/-! ### Lexical path cleaning (Go `filepath.Clean`, Unix separator) -/

/-- One step of the `Clean` element processing: skip empty and `.` segments,
resolve `..` against the stack as Go does. -/
def cleanStep (rooted : Bool) (stack : List (List Char)) (seg : List Char) :
    List (List Char) :=
  if seg = [] || seg = ['.'] then stack
  else if seg = ['.', '.'] then
    match stack with
    | [] => if rooted then [] else [['.', '.']]
    | top :: rest => if top = ['.', '.'] then seg :: stack else rest
  else seg :: stack

/-- Join segments with `/`. -/
def joinSegs : List (List Char) → List Char
  | [] => []
  | [s] => s
  | s :: rest => s ++ '/' :: joinSegs rest

/-- Embeds `filepath.Clean` (Unix rules): lexically normalize a path. -/
def filepathClean (p : String) : String :=
  if p = "" then "."
  else
    let cs := p.data
    let rooted := isPfx ['/'] cs
    let stack := (splitSeg '/' cs).foldl (cleanStep rooted) []
    let body := joinSegs stack.reverse
    if rooted then ⟨'/' :: body⟩
    else if body = [] then "." else ⟨body⟩

/-- Embeds `validatePath`. -/
def validatePath (path : String) : Option String :=
  if path = "" then none
  else
    let cleaned := filepathClean path
    if strStarts cleaned "/" then some "absolute paths are not allowed"
    else if strStarts cleaned ".." || strContains cleaned "/.." then
      some "path traversal detected: cannot use \x27..\x27 to escape working directory"
    else none

/-! ### Data model -/

/-- The plugin configuration record (`Config` in `plugin.go`); Go maps are
embedded as association lists, iterated in list order. -/
structure Config where
  registry : String
  image : String
  tags : List String
  dockerfile : String
  context : String
  buildArgs : List (String × String)
  platforms : List String
  username : String
  password : String
  push : Bool
  labels : List (String × String)
  cacheFrom : List String
  noCache : Bool
  target : String
deriving DecidableEq

/-- An external command invocation handed to the `CommandExecutor`:
executable name, argument list, optional standard input. -/
structure Cmd where
  name : String
  args : List String
  stdin : Option String
deriving DecidableEq

/-- The `Outputs` map of an `ExecuteResponse`: either absent, the dry-run
preview shape, or the completed-run shape. -/
inductive Outputs where
  | absent
  | preview (image : String) (tags : List String) (registry : String)
  | done (image : String) (tags : List String) (pushed : Bool)
deriving DecidableEq

/-- The structured `plugin.ExecuteResponse`. -/
structure ExecuteResponse where
  success : Bool
  message : String
  error : String
  outputs : Outputs
deriving DecidableEq

/-- The hook identifier of an `ExecuteRequest`. -/
inductive Hook where
  | postPublish
  | other (name : String)
deriving DecidableEq

/-- A failure response: success flag cleared, the error text set, no
message and no outputs. -/
def failResp (e : String) : ExecuteResponse := ⟨false, "", e, Outputs.absent⟩

/-! ### Tag resolution (lines 276-316 of `plugin.go`) -/

/-- Placeholder literals of the tag template language. -/
def phVersion : String := "\x7b\x7bversion\x7d\x7d"

/-- The major placeholder. -/
def phMajor : String := "\x7b\x7bmajor\x7d\x7d"

/-- The minor placeholder. -/
def phMinor : String := "\x7b\x7bminor\x7d\x7d"

/-- The patch placeholder. -/
def phPatch : String := "\x7b\x7bpatch\x7d\x7d"

/-- `strings.TrimPrefix(version, "v")`. -/
def stripV (v : String) : String := trimPfx v "v"

/-- Splitting the stripped version on `.` into (major, minor, patch);
missing components are the empty string. -/
def versionParts (releaseVersion : String) : String × String × String :=
  let parts := splitSeg '.' (stripV releaseVersion).data
  let major := match parts with | [] => "" | a :: _ => (⟨a⟩ : String)
  let minor := match parts with | _ :: b :: _ => (⟨b⟩ : String) | _ => ""
  let patch := match parts with | _ :: _ :: c :: _ => (⟨c⟩ : String) | _ => ""
  (major, minor, patch)

/-- The four `strings.ReplaceAll` calls of the tag loop, in source order:
version, major, minor, patch. -/
def resolveTag (ver major minor patch : String) (t : String) : String :=
  goReplaceAll
    (goReplaceAll (goReplaceAll (goReplaceAll t phVersion ver) phMajor major)
      phMinor minor)
    phPatch patch

/-- The tag loop: substitute each template, drop empty results, validate
the rest, abort on the first invalid resolved tag. -/
def resolveTagsE (ver major minor patch : String) : List String → Except String (List String)
  | [] => .ok []
  | t :: ts =>
    let resolved := resolveTag ver major minor patch t
    if resolved = "" then resolveTagsE ver major minor patch ts
    else
      match validateTag resolved with
      | some err => .error ("invalid tag \x27" ++ resolved ++ "\x27: " ++ err)
      | none =>
        match resolveTagsE ver major minor patch ts with
        | .error e => .error e
        | .ok rest => .ok (resolved :: rest)

/-- Tag resolution for a configuration: version components from the release
version, the default template list when none is configured. -/
def tagResolution (cfg : Config) (releaseVersion : String) : Except String (List String) :=
  resolveTagsE (stripV releaseVersion) (versionParts releaseVersion).1
    (versionParts releaseVersion).2.1 (versionParts releaseVersion).2.2
    (if cfg.tags = [] then [phVersion, "latest"] else cfg.tags)

/-- The per-tag image reference (lines 318-325): registry-qualified when the
registry is neither empty nor the default host, joined to the tag by `:`. -/
def imageRefFor (cfg : Config) (tag : String) : String :=
  let imageName :=
    if cfg.registry ≠ "" ∧ cfg.registry ≠ "docker.io" then
      cfg.registry ++ "/" ++ cfg.image
    else cfg.image
  imageName ++ ":" ++ tag

/-! ### Command construction -/

/-- The `docker login` invocation of `dockerLogin`. -/
def loginCmd (cfg : Config) : Cmd :=
  let registry := if cfg.registry = "" || cfg.registry = "docker.io" then "" else cfg.registry
  let args := ["login"] ++ (if registry = "" then [] else [registry])
    ++ ["-u", cfg.username, "--password-stdin"]
  ⟨"docker", args, some cfg.password⟩

/-- The `docker build` invocation of `dockerBuild`. -/
def buildCmd (cfg : Config) (imageNames : List String) (releaseVersion : String) : Cmd :=
  let dockerfile := if cfg.dockerfile = "" then "Dockerfile" else cfg.dockerfile
  let buildContext := if cfg.context = "" then "." else cfg.context
  let args :=
    ["build"]
    ++ (imageNames.map (fun n => ["-t", n])).flatten
    ++ ["-f", dockerfile]
    ++ (cfg.buildArgs.map (fun kv => ["--build-arg", kv.1 ++ "=" ++ kv.2])).flatten
    ++ ["--build-arg", "VERSION=" ++ releaseVersion]
    ++ (if cfg.platforms = [] then [] else ["--platform", joinComma cfg.platforms])
    ++ (cfg.labels.map (fun kv => ["--label", kv.1 ++ "=" ++ kv.2])).flatten
    ++ (cfg.cacheFrom.map (fun c => ["--cache-from", c])).flatten
    ++ (if cfg.noCache then ["--no-cache"] else [])
    ++ (if cfg.target = "" then [] else ["--target", cfg.target])
    ++ [buildContext]
  ⟨"docker", args, none⟩

/-- The `docker push` invocation of `dockerPush`. -/
def pushCmd (imageName : String) : Cmd := ⟨"docker", ["push", imageName], none⟩

/-! ### Orchestration (`buildAndPush` and `Execute`) -/

/-- First failing key of a map-key validation loop, with its error. -/
def firstKeyError (f : String → Option String) : List (String × String) → Option (String × String)
  | [] => none
  | (k, _) :: rest =>
    match f k with
    | some e => some (k, e)
    | none => firstKeyError f rest

/-- The push loop: one `docker push` per image name, stopping at (and
including) the first failing call. -/
def pushLoop (exec : Cmd → Option String) : List String → List Cmd × Option String
  | [] => ([], none)
  | n :: ns =>
    match exec (pushCmd n) with
    | some e => ([pushCmd n], some ("failed to push image " ++ n ++ ": " ++ e))
    | none =>
      let r := pushLoop exec ns
      (pushCmd n :: r.1, r.2)

/-- The non-dry-run execution phase: optional login, then build, then the
push loop; failure of each step aborts the rest.  Returns the command
trace, the response, and the (always nil) Go error. -/
def execPhase (cfg : Config) (releaseVersion : String) (exec : Cmd → Option String)
    (resolvedTags imageNames : List String) :
    List Cmd × ExecuteResponse × Option String :=
  let okResp : ExecuteResponse :=
    ⟨true, "Built and pushed Docker image with " ++ natToStr resolvedTags.length ++ " tags",
      "", Outputs.done cfg.image resolvedTags cfg.push⟩
  let runRest (tr0 : List Cmd) : List Cmd × ExecuteResponse × Option String :=
    let b := buildCmd cfg imageNames releaseVersion
    match exec b with
    | some e => (tr0 ++ [b], failResp ("failed to build image: " ++ e), none)
    | none =>
      if cfg.push then
        let pr := pushLoop exec imageNames
        match pr.2 with
        | some e => (tr0 ++ [b] ++ pr.1, failResp e, none)
        | none => (tr0 ++ [b] ++ pr.1, okResp, none)
      else (tr0 ++ [b], okResp, none)
  if cfg.username ≠ "" ∧ cfg.password ≠ "" then
    match exec (loginCmd cfg) with
    | some e => ([loginCmd cfg], failResp ("failed to login to registry: " ++ e), none)
    | none => runRest [loginCmd cfg]
  else runRest []

/-- Embeds `buildAndPush`: the validator chain in source order, tag
resolution, the dry-run early return, then the execution phase. -/
def buildAndPush (cfg : Config) (releaseVersion : String) (dryRun : Bool)
    (exec : Cmd → Option String) : List Cmd × ExecuteResponse × Option String :=
  match validateImageName cfg.image with
  | some err => ([], failResp ("invalid image configuration: " ++ err), none)
  | none =>
  match validateRegistry cfg.registry with
  | some err => ([], failResp ("invalid registry configuration: " ++ err), none)
  | none =>
  match validatePath cfg.dockerfile with
  | some err => ([], failResp ("invalid dockerfile path: " ++ err), none)
  | none =>
  match validatePath cfg.context with
  | some err => ([], failResp ("invalid build context path: " ++ err), none)
  | none =>
  match firstKeyError validateBuildArgKey cfg.buildArgs with
  | some ke => ([], failResp ("invalid build arg key \x27" ++ ke.1 ++ "\x27: " ++ ke.2), none)
  | none =>
  match firstKeyError validateLabelKey cfg.labels with
  | some ke => ([], failResp ("invalid label key \x27" ++ ke.1 ++ "\x27: " ++ ke.2), none)
  | none =>
  match tagResolution cfg releaseVersion with
  | .error e => ([], failResp e, none)
  | .ok resolvedTags =>
    let imageNames := resolvedTags.map (imageRefFor cfg)
    if dryRun then
      ([], ⟨true, "Would build and push Docker image", "",
        Outputs.preview cfg.image resolvedTags cfg.registry⟩, none)
    else execPhase cfg releaseVersion exec resolvedTags imageNames

/-- Embeds `Execute`: dispatch on the hook, unhandled hooks succeed with a
"not handled" message; the Go error component is nil on every path. -/
def execute (hook : Hook) (cfg : Config) (releaseVersion : String) (dryRun : Bool)
    (exec : Cmd → Option String) : List Cmd × ExecuteResponse × Option String :=
  match hook with
  | .postPublish => buildAndPush cfg releaseVersion dryRun exec
  | .other name => ([], ⟨true, "Hook " ++ name ++ " not handled", "", Outputs.absent⟩, none)

/-! ### Specification-side definitions

These follow the wording of the specification (check order, planned
command sequence, dry-run preview) and are compared with the embedded
orchestrator by the theorems below. -/

/-- The fixed validation order of the specification: image name, registry,
dockerfile path, context path, build-arg keys, label keys, then each
resolved tag; yields the surfaced error text of the first failure. -/
def specFirstValidationError (cfg : Config) (releaseVersion : String) : Option String :=
  match validateImageName cfg.image with
  | some err => some ("invalid image configuration: " ++ err)
  | none =>
  match validateRegistry cfg.registry with
  | some err => some ("invalid registry configuration: " ++ err)
  | none =>
  match validatePath cfg.dockerfile with
  | some err => some ("invalid dockerfile path: " ++ err)
  | none =>
  match validatePath cfg.context with
  | some err => some ("invalid build context path: " ++ err)
  | none =>
  match firstKeyError validateBuildArgKey cfg.buildArgs with
  | some ke => some ("invalid build arg key \x27" ++ ke.1 ++ "\x27: " ++ ke.2)
  | none =>
  match firstKeyError validateLabelKey cfg.labels with
  | some ke => some ("invalid label key \x27" ++ ke.1 ++ "\x27: " ++ ke.2)
  | none =>
  match tagResolution cfg releaseVersion with
  | .error e => some e
  | .ok _ => none

/-- The resolved tag list of a valid configuration (empty on a tag error). -/
def specResolvedTags (cfg : Config) (releaseVersion : String) : List String :=
  match tagResolution cfg releaseVersion with
  | .ok l => l
  | .error _ => []

/-- The image references of the resolved tags. -/
def specImageNames (cfg : Config) (releaseVersion : String) : List String :=
  (specResolvedTags cfg releaseVersion).map (imageRefFor cfg)

/-- The planned command sequence of the specification: optional login, build,
then one push per resolved tag when the push flag is set. -/
def plannedCmds (cfg : Config) (releaseVersion : String) : List Cmd :=
  (if cfg.username ≠ "" ∧ cfg.password ≠ "" then [loginCmd cfg] else [])
  ++ [buildCmd cfg (specImageNames cfg releaseVersion) releaseVersion]
  ++ (if cfg.push then (specImageNames cfg releaseVersion).map pushCmd else [])

/-- Run a command sequence in order, stopping at (and including) the first
command the executor fails; the result is the trace of issued commands. -/
def runSeq (exec : Cmd → Option String) : List Cmd → List Cmd
  | [] => []
  | c :: cs =>
    match exec c with
    | some _ => [c]
    | none => c :: runSeq exec cs

/-- The dry-run response of the specification: the first validation failure if
any, otherwise a successful preview of the unqualified image name, the
resolved tags, and the registry. -/
def specDryRunResponse (cfg : Config) (releaseVersion : String) : ExecuteResponse :=
  match specFirstValidationError cfg releaseVersion with
  | some e => failResp e
  | none =>
    ⟨true, "Would build and push Docker image", "",
      Outputs.preview cfg.image (specResolvedTags cfg releaseVersion) cfg.registry⟩

/-- The two-character segment `..`. -/
def dotdotL : List Char := ['.', '.']

/-- True when some `/`-separated segment of the string is exactly `..`. -/
def hasDotDotSeg (s : String) : Bool :=
  (splitSeg '/' s.data).any (fun seg => seg = dotdotL)

/-! ### Auxiliary lemmas about path segments -/

theorem splitSeg_ne_nil (sep : Char) (cs : List Char) : splitSeg sep cs ≠ [] := by
  cases cs with
  | nil => simp [splitSeg]
  | cons c rest =>
    by_cases hc : c = sep
    · simp [splitSeg, hc]
    · simp only [splitSeg, if_neg hc]
      cases splitSeg sep rest with
      | nil => simp
      | cons s ss => simp

theorem splitSeg_head_isPfx (sep : Char) (cs : List Char) (s : List Char) (ss : List (List Char))
    (h : splitSeg sep cs = s :: ss) : isPfx s cs = true := by
  induction cs generalizing s ss with
  | nil =>
    simp [splitSeg] at h
    simp [h.1, isPfx]
  | cons c rest ih =>
    by_cases hc : c = sep
    · rw [show splitSeg sep (c :: rest) = [] :: splitSeg sep rest by simp [splitSeg, hc]] at h
      have hs : s = [] := (List.cons.injEq _ _ _ _ ▸ h).1.symm
      simp [hs, isPfx]
    · simp only [splitSeg, if_neg hc] at h
      cases hrest : splitSeg sep rest with
      | nil => exact absurd hrest (splitSeg_ne_nil sep rest)
      | cons s2 ss2 =>
        rw [hrest] at h
        have hs : s = c :: s2 := ((List.cons.injEq _ _ _ _).mp h).1.symm
        rw [hs]
        have := ih s2 ss2 hrest
        simp [isPfx, this]

theorem splitSeg_dotdot (cs : List Char) :
    (dotdotL ∈ splitSeg '/' cs →
      isPfx dotdotL cs = true ∨ hasSub ('/' :: dotdotL) cs = true) ∧
    (dotdotL ∈ (splitSeg '/' cs).tail →
      hasSub ('/' :: dotdotL) cs = true) := by
  induction cs with
  | nil =>
    constructor <;> intro h <;> simp [splitSeg, dotdotL] at h
  | cons c rest ih =>
    by_cases hc : c = '/'
    · subst hc
      have hsplit : splitSeg '/' ('/' :: rest) = [] :: splitSeg '/' rest := by
        simp [splitSeg]
      constructor
      · intro h
        rw [hsplit] at h
        rcases List.mem_cons.mp h with h1 | h2
        · simp [dotdotL] at h1
        · rcases ih.1 h2 with hp | hs
          · right
            have hpfx : isPfx ('/' :: dotdotL) ('/' :: rest) = true := by
              simp [isPfx, hp]
            simp [hasSub, hpfx]
          · right
            simp [hasSub, hs]
      · intro h
        rw [hsplit] at h
        simp only [List.tail_cons] at h
        rcases ih.1 h with hp | hs
        · have hpfx : isPfx ('/' :: dotdotL) ('/' :: rest) = true := by
            simp [isPfx, hp]
          simp [hasSub, hpfx]
        · simp [hasSub, hs]
    · cases hrest : splitSeg '/' rest with
      | nil => exact absurd hrest (splitSeg_ne_nil '/' rest)
      | cons s ss =>
        have hsplit : splitSeg '/' (c :: rest) = (c :: s) :: ss := by
          simp only [splitSeg, if_neg hc]
          rw [hrest]
        constructor
        · intro h
          rw [hsplit] at h
          rcases List.mem_cons.mp h with h1 | h2
          · -- the head segment `c :: s` is `..`, so the string starts with `..`
            left
            have hc1 : c = '.' := by
              have := congrArg (fun l => l.headD ' ') h1.symm
              simpa [dotdotL] using this
            have hs1 : s = ['.'] := by
              have := congrArg List.tail h1.symm
              simpa [dotdotL] using this
            have hpfx : isPfx s rest = true := splitSeg_head_isPfx '/' rest s ss hrest
            subst hc1
            cases rest with
            | nil => rw [hs1] at hpfx; simp [isPfx] at hpfx
            | cons d rest2 =>
              rw [hs1] at hpfx
              simp only [isPfx, Bool.and_eq_true, decide_eq_true_eq] at hpfx
              have hd : d = '.' := by
                rcases hpfx with ⟨hd, _⟩
                exact hd.symm
              subst hd
              simp [dotdotL, isPfx]
          · -- `..` occurs in a later segment of `rest`
            right
            have hmem : dotdotL ∈ (splitSeg '/' rest).tail := by
              rw [hrest]; simpa using h2
            have := ih.2 hmem
            simp [hasSub, this]
        · intro h
          rw [hsplit] at h
          simp only [List.tail_cons] at h
          have hmem : dotdotL ∈ (splitSeg '/' rest).tail := by
            rw [hrest]; simpa using h
          have := ih.2 hmem
          simp [hasSub, this]

/-! ### C1: path validation -/

/-- C1 (counterexample): the claim asserts that every relative path whose
normalized form contains no `..` segment — such as `a/..b` — is accepted.
In fact `validatePath` checks for the substring `/..`, so `a/..b` (whose
normalized form is `a/..b` itself: relative, not starting with `..`, with
no `..` segment) is rejected with the traversal error. -/
theorem c1_counterexample :
    filepathClean "a/..b" = "a/..b" ∧
    strStarts (filepathClean "a/..b") "/" = false ∧
    strStarts (filepathClean "a/..b") ".." = false ∧
    hasDotDotSeg (filepathClean "a/..b") = false ∧
    validatePath "a/..b" =
      some "path traversal detected: cannot use \x27..\x27 to escape working directory" := by
  decide

/-- C1 (amended): `validatePath` accepts the empty path; otherwise it
lexically normalizes the path and fails exactly when the normalized form
is absolute, starts with the two characters `..`, or contains `/..` as a
substring.  The substring test over-approximates the "contains a `..`
path segment" wording: the normalized form of every accepted path indeed has
no `..` segment (second conjunct), but some safe paths such as `a/..b`
are also rejected. -/
theorem c1_path_validation (p : String) :
    (validatePath p = none ↔
      (p = "" ∨
        (strStarts (filepathClean p) "/" = false ∧
         strStarts (filepathClean p) ".." = false ∧
         strContains (filepathClean p) "/.." = false))) ∧
    (validatePath p = none → hasDotDotSeg (filepathClean p) = false) := by
  constructor
  · by_cases hp : p = ""
    · simp [validatePath, hp]
    · cases h1 : strStarts (filepathClean p) "/" with
      | true => simp [validatePath, hp, h1]
      | false =>
        cases h2 : strStarts (filepathClean p) ".." with
        | true => simp [validatePath, hp, h1, h2]
        | false =>
          cases h3 : strContains (filepathClean p) "/.." with
          | true => simp [validatePath, hp, h1, h2, h3]
          | false => simp [validatePath, hp, h1, h2, h3]
  · intro h
    by_cases hp : p = ""
    · subst hp
      decide
    · simp only [validatePath, if_neg hp] at h
      cases hdd : hasDotDotSeg (filepathClean p) with
      | false => rfl
      | true =>
        exfalso
        have hmem : dotdotL ∈ splitSeg '/' (filepathClean p).data := by
          rcases List.any_eq_true.mp hdd with ⟨seg, hseg, hdec⟩
          have : seg = dotdotL := of_decide_eq_true hdec
          rwa [this] at hseg
        have hdots : (".." : String).data = dotdotL := by decide
        have hsl : ("/.." : String).data = '/' :: dotdotL := by decide
        rcases (splitSeg_dotdot (filepathClean p).data).1 hmem with hpfx | hsub
        · have hb : strStarts (filepathClean p) ".." = true := by
            rw [strStarts, hdots]; exact hpfx
          rw [hb] at h
          cases hA : strStarts (filepathClean p) "/" with
          | true => rw [hA] at h; simp at h
          | false => rw [hA] at h; simp at h
        · have hb : strContains (filepathClean p) "/.." = true := by
            rw [strContains, hsl]; exact hsub
          rw [hb] at h
          cases hA : strStarts (filepathClean p) "/" with
          | true => rw [hA] at h; simp at h
          | false => rw [hA] at h; simp at h

/-- C1 witness: a concrete safe relative path is accepted, and the
second conjunct of the theorem applies to it. -/
theorem c1_path_validation_witness :
    validatePath "docs/Dockerfile" = none ∧
    hasDotDotSeg (filepathClean "docs/Dockerfile") = false :=
  ⟨by decide, (c1_path_validation "docs/Dockerfile").2 (by decide)⟩

deriving instance DecidableEq for Except

/-! ### Concrete test fixtures -/

/-- The parse-time defaults with image `myorg/myapp`: registry `docker.io`,
no explicit tags, `Dockerfile`, context `.`, no credentials, push on. -/
def cfgDefault : Config :=
  ⟨"docker.io", "myorg/myapp", [], "Dockerfile", ".", [], [], "", "", true, [], [], false, ""⟩

/-- The default configuration plus credentials. -/
def cfgCreds : Config := { cfgDefault with username := "testuser", password := "testpass" }

/-- The default configuration with an empty image name. -/
def cfgBadImage : Config := { cfgDefault with image := "" }

/-- An executor on which every command succeeds. -/
def execOK : Cmd → Option String := fun _ => none

/-- An executor failing exactly the `login` command. -/
def execLoginFail : Cmd → Option String :=
  fun c => if c.args.headD "" = "login" then some "mock error" else none

/-! ### C3: version parsing -/

/-- C3: resolving a version string strips one optional leading `v` and
splits the remainder on `.`; major, minor and patch are the first three
components, with missing components resolving to the empty string; in
particular `v1.2` gives major `1`, minor `2`, patch empty. -/
theorem c3_version_components :
    (∀ v : String,
      versionParts v =
        (((splitSeg '.' (stripV v).data).map (fun cs => (⟨cs⟩ : String))).getD 0 "",
         ((splitSeg '.' (stripV v).data).map (fun cs => (⟨cs⟩ : String))).getD 1 "",
         ((splitSeg '.' (stripV v).data).map (fun cs => (⟨cs⟩ : String))).getD 2 "")) ∧
    versionParts "v1.2" = ("1", "2", "") ∧
    versionParts "v1.2.3" = ("1", "2", "3") ∧
    versionParts "1.0.0" = ("1", "0", "0") ∧
    versionParts "v" = ("", "", "") ∧
    versionParts "vv1.2" = ("v1", "2", "") ∧
    stripV "v1.2.3" = "1.2.3" := by
  refine ⟨fun v => ?_, by decide, by decide, by decide, by decide, by decide, by decide⟩
  cases h : splitSeg '.' (stripV v).data with
  | nil => simp [versionParts, h, List.getD]
  | cons a t =>
    cases t with
    | nil => simp [versionParts, h, List.getD]
    | cons b t2 =>
      cases t2 with
      | nil => simp [versionParts, h, List.getD]
      | cons c t3 => simp [versionParts, h, List.getD]

/-! ### C4: template substitution -/

/-- Substitution in a different placeholder order (minor before version,
major, patch); used to refute order-independence. -/
def resolveTagMinorFirst (ver major minor patch : String) (t : String) : String :=
  goReplaceAll
    (goReplaceAll (goReplaceAll (goReplaceAll t phMinor minor) phVersion ver)
      phMajor major)
    phPatch patch

/-- C4 (counterexample): substitution is not order-independent for every
version string.  For version `v{{minor}}.7` the derived major component is
the literal `{{minor}}`, so resolving the template `{{major}}` in source
order (version, major, minor, patch) yields `7`, while substituting minor
first yields `{{minor}}`. -/
theorem c4_counterexample :
    stripV "v\x7b\x7bminor\x7d\x7d.7" = "\x7b\x7bminor\x7d\x7d.7" ∧
    versionParts "v\x7b\x7bminor\x7d\x7d.7" = ("\x7b\x7bminor\x7d\x7d", "7", "") ∧
    resolveTag "\x7b\x7bminor\x7d\x7d.7" "\x7b\x7bminor\x7d\x7d" "7" "" phMajor = "7" ∧
    resolveTagMinorFirst "\x7b\x7bminor\x7d\x7d.7" "\x7b\x7bminor\x7d\x7d" "7" "" phMajor = phMinor ∧
    ("7" : String) ≠ phMinor := by
  decide

/-- C4 (amended): substitution applies one global, non-recursive
replacement per placeholder type in the fixed source order version,
major, minor, patch; later replacements act on the output of earlier
ones, so order-independence and per-placeholder idempotence only hold
when the substituted values contain no placeholder text (the
counterexample shows they fail in general).  The concrete claims hold:
`{{major}}.{{minor}}.{{patch}}` at `v3.2.1` resolves to `3.2.1` (and
resolving again is the identity), and the default tag list at `v1.2.3`
resolves to `1.2.3`, `latest`. -/
theorem c4_substitution :
    resolveTag (stripV "v3.2.1") (versionParts "v3.2.1").1 (versionParts "v3.2.1").2.1
        (versionParts "v3.2.1").2.2
        "\x7b\x7bmajor\x7d\x7d.\x7b\x7bminor\x7d\x7d.\x7b\x7bpatch\x7d\x7d" = "3.2.1" ∧
    resolveTag (stripV "v3.2.1") (versionParts "v3.2.1").1 (versionParts "v3.2.1").2.1
        (versionParts "v3.2.1").2.2 "3.2.1" = "3.2.1" ∧
    tagResolution cfgDefault "v1.2.3" = .ok ["1.2.3", "latest"] := by
  refine ⟨by decide, by decide, by decide⟩

/-! ### C6: empty resolved tags are dropped -/

/-- C6: for every template list and version components, the tag loop
returns the substituted templates with empty results dropped — in input
order — exactly when every non-empty substitution result passes
`validateTag`; templates resolving to the empty string are never
validated and never produce an error. -/
theorem c6_empty_tags_dropped (ver major minor patch : String) (ts : List String) :
    resolveTagsE ver major minor patch ts =
        .ok ((ts.map (resolveTag ver major minor patch)).filter (fun t => t ≠ ""))
      ↔ (ts.map (resolveTag ver major minor patch)).all
          (fun t => t == "" || (validateTag t).isNone) = true := by
  induction ts with
  | nil => simp [resolveTagsE]
  | cons t ts ih =>
    by_cases h0 : resolveTag ver major minor patch t = ""
    · have hl : resolveTagsE ver major minor patch (t :: ts) =
          resolveTagsE ver major minor patch ts := by
        simp [resolveTagsE, h0]
      rw [hl, List.map_cons, List.filter_cons, List.all_cons, h0]
      simpa using ih
    · cases hv : validateTag (resolveTag ver major minor patch t) with
      | some err =>
        have hl : resolveTagsE ver major minor patch (t :: ts) =
            .error ("invalid tag \x27" ++ resolveTag ver major minor patch t
              ++ "\x27: " ++ err) := by
          simp [resolveTagsE, h0, hv]
        rw [hl, List.map_cons, List.filter_cons, List.all_cons]
        simp [h0, hv]
      | none =>
        cases hrec : resolveTagsE ver major minor patch ts with
        | error e =>
          have hl : resolveTagsE ver major minor patch (t :: ts) = .error e := by
            simp [resolveTagsE, h0, hv, hrec]
          have hall : (ts.map (resolveTag ver major minor patch)).all
              (fun t => t == "" || (validateTag t).isNone) = false := by
            cases hA : (ts.map (resolveTag ver major minor patch)).all
                (fun t => t == "" || (validateTag t).isNone) with
            | false => rfl
            | true =>
              have := ih.mpr hA
              rw [hrec] at this
              simp at this
          rw [hl, List.map_cons, List.filter_cons, List.all_cons]
          simp [h0, hv, hall]
        | ok rest =>
          have hl : resolveTagsE ver major minor patch (t :: ts) =
              .ok (resolveTag ver major minor patch t :: rest) := by
            simp [resolveTagsE, h0, hv, hrec]
          rw [hl, List.map_cons, List.filter_cons, List.all_cons]
          rw [hrec] at ih
          simp [h0, hv]
          simpa using ih

/-- C6 witness: a template list with an empty-resolving entry (patch of
`v1.2` is empty) drops it, keeps order, and raises no error. -/
theorem c6_empty_tags_dropped_witness :
    resolveTagsE "1.2" "1" "2" "" ["\x7b\x7bversion\x7d\x7d", "\x7b\x7bpatch\x7d\x7d", "latest"] =
      .ok ["1.2", "latest"] := by
  have h := (c6_empty_tags_dropped "1.2" "1" "2" ""
      ["\x7b\x7bversion\x7d\x7d", "\x7b\x7bpatch\x7d\x7d", "latest"]).mpr (by decide)
  simpa using h

/-! ### C7: image references -/

/-- C7: the image reference is the image name joined to the tag by `:`,
prefixed with `<registry>/` exactly when the registry is non-empty and
not `docker.io`; with the concrete examples of the specification. -/
theorem c7_registry_qualification :
    (∀ (cfg : Config) (tag : String),
      imageRefFor cfg tag =
        (if cfg.registry ≠ "" ∧ cfg.registry ≠ "docker.io" then cfg.registry ++ "/" else "")
          ++ cfg.image ++ ":" ++ tag) ∧
    imageRefFor cfgDefault "latest" = "myorg/myapp:latest" ∧
    imageRefFor { cfgDefault with registry := "" } "latest" = "myorg/myapp:latest" ∧
    imageRefFor { cfgDefault with registry := "ghcr.io" } "1.2.3" = "ghcr.io/myorg/myapp:1.2.3" := by
  refine ⟨fun cfg tag => ?_, by decide, by decide, by decide⟩
  by_cases h : cfg.registry ≠ "" ∧ cfg.registry ≠ "docker.io"
  · simp [imageRefFor, h, String.append_assoc]
  · simp [imageRefFor, h]

/-! ### C8: the login invocation -/

/-- C8: `docker login` is invoked with exactly `login`, the registry (only
when it is neither empty nor `docker.io`), `-u`, the username, and
`--password-stdin`; the password is supplied on standard input and the
argument list does not depend on it. -/
theorem c8_login_args :
    (∀ cfg : Config,
      loginCmd cfg =
        ⟨"docker",
          ["login"]
            ++ (if cfg.registry ≠ "" ∧ cfg.registry ≠ "docker.io" then [cfg.registry] else [])
            ++ ["-u", cfg.username, "--password-stdin"],
          some cfg.password⟩) ∧
    (∀ (cfg : Config) (p q : String),
      (loginCmd { cfg with password := p }).args = (loginCmd { cfg with password := q }).args) ∧
    (∀ cfg : Config, (loginCmd cfg).stdin = some cfg.password) := by
  refine ⟨fun cfg => ?_, fun cfg p q => rfl, fun cfg => rfl⟩
  by_cases h1 : cfg.registry = ""
  · simp [loginCmd, h1]
  · by_cases h2 : cfg.registry = "docker.io"
    · simp [loginCmd, h1, h2]
    · simp [loginCmd, h1, h2]

/-! ### Helper lemmas for the orchestrator theorems -/

theorem strAppendNeLeft (s t : String) (h : s ≠ "") : s ++ t ≠ "" := by
  intro hab
  have hd : s.data ++ t.data = [] := by
    have := congrArg String.data hab
    simpa [String.data_append] using this
  rcases List.append_eq_nil.mp hd with ⟨hs, _⟩
  apply h
  cases s
  simp at hs
  rw [hs]

theorem pushLoop_fst (exec : Cmd → Option String) (ns : List String) :
    (pushLoop exec ns).1 = runSeq exec (ns.map pushCmd) := by
  induction ns with
  | nil => simp [pushLoop, runSeq]
  | cons n ns ih =>
    cases h : exec (pushCmd n) with
    | some e => simp [pushLoop, runSeq, h]
    | none => simp [pushLoop, runSeq, h, ih]

theorem pushLoop_err_ne (exec : Cmd → Option String) (ns : List String) (e : String)
    (h : (pushLoop exec ns).2 = some e) : e ≠ "" := by
  induction ns with
  | nil => simp [pushLoop] at h
  | cons n ns ih =>
    cases hx : exec (pushCmd n) with
    | some e2 =>
      simp [pushLoop, hx] at h
      rw [← h]
      exact strAppendNeLeft _ _
        (strAppendNeLeft _ _ (strAppendNeLeft "failed to push image " n (by decide)))
    | none =>
      simp [pushLoop, hx] at h
      exact ih h

theorem resolveTagsE_err_ne (ver major minor patch : String) (ts : List String) (e : String)
    (h : resolveTagsE ver major minor patch ts = .error e) : e ≠ "" := by
  induction ts with
  | nil => simp [resolveTagsE] at h
  | cons t ts ih =>
    by_cases h0 : resolveTag ver major minor patch t = ""
    · simp only [resolveTagsE, if_pos h0] at h
      exact ih h
    · simp only [resolveTagsE, if_neg h0] at h
      cases hv : validateTag (resolveTag ver major minor patch t) with
      | some err =>
        rw [hv] at h
        simp at h
        rw [← h]
        exact strAppendNeLeft _ _
          (strAppendNeLeft _ _
            (strAppendNeLeft "invalid tag \x27" (resolveTag ver major minor patch t)
              (by decide)))
      | none =>
        rw [hv] at h
        cases hrec : resolveTagsE ver major minor patch ts with
        | error e2 =>
          rw [hrec] at h
          simp at h
          subst h
          exact ih hrec
        | ok rest => rw [hrec] at h; simp at h

theorem sfve_none_parts (cfg : Config) (v : String)
    (h : specFirstValidationError cfg v = none) :
    validateImageName cfg.image = none ∧ validateRegistry cfg.registry = none ∧
    validatePath cfg.dockerfile = none ∧ validatePath cfg.context = none ∧
    firstKeyError validateBuildArgKey cfg.buildArgs = none ∧
    firstKeyError validateLabelKey cfg.labels = none ∧
    tagResolution cfg v = .ok (specResolvedTags cfg v) := by
  cases h1 : validateImageName cfg.image with
  | some e => simp [specFirstValidationError, h1] at h
  | none =>
  cases h2 : validateRegistry cfg.registry with
  | some e => simp [specFirstValidationError, h1, h2] at h
  | none =>
  cases h3 : validatePath cfg.dockerfile with
  | some e => simp [specFirstValidationError, h1, h2, h3] at h
  | none =>
  cases h4 : validatePath cfg.context with
  | some e => simp [specFirstValidationError, h1, h2, h3, h4] at h
  | none =>
  cases h5 : firstKeyError validateBuildArgKey cfg.buildArgs with
  | some ke => simp [specFirstValidationError, h1, h2, h3, h4, h5] at h
  | none =>
  cases h6 : firstKeyError validateLabelKey cfg.labels with
  | some ke => simp [specFirstValidationError, h1, h2, h3, h4, h5, h6] at h
  | none =>
  cases h7 : tagResolution cfg v with
  | error e => simp [specFirstValidationError, h1, h2, h3, h4, h5, h6, h7] at h
  | ok l =>
    exact ⟨rfl, rfl, rfl, rfl, rfl, rfl, by simp [specResolvedTags, h7]⟩

theorem execPhase_trace (cfg : Config) (v : String) (exec : Cmd → Option String)
    (rts ins : List String) :
    (execPhase cfg v exec rts ins).1 =
      runSeq exec ((if cfg.username ≠ "" ∧ cfg.password ≠ "" then [loginCmd cfg] else [])
        ++ [buildCmd cfg ins v] ++ (if cfg.push then ins.map pushCmd else [])) := by
  by_cases hcred : cfg.username ≠ "" ∧ cfg.password ≠ ""
  · simp only [execPhase, if_pos hcred]
    cases hl : exec (loginCmd cfg) with
    | some e => simp [runSeq, hl]
    | none =>
      simp only [runSeq, hl]
      cases hb : exec (buildCmd cfg ins v) with
      | some e => simp [runSeq, hb]
      | none =>
        by_cases hp : cfg.push
        · cases hpr : (pushLoop exec ins).2 with
          | some e => simp [runSeq, hl, hb, hp, hpr, pushLoop_fst]
          | none => simp [runSeq, hl, hb, hp, hpr, pushLoop_fst]
        · simp [runSeq, hl, hb, hp]
  · simp only [execPhase, if_neg hcred]
    cases hb : exec (buildCmd cfg ins v) with
    | some e => simp [runSeq, hb]
    | none =>
      by_cases hp : cfg.push
      · cases hpr : (pushLoop exec ins).2 with
        | some e => simp [runSeq, hb, hp, hpr, pushLoop_fst]
        | none => simp [runSeq, hb, hp, hpr, pushLoop_fst]
      · simp [runSeq, hb, hp]

/-! ### C5: validation before any external command -/

/-- C5: whenever the fixed-order validation chain (image name, registry,
dockerfile path, context path, build-arg keys, label keys, resolved tags)
produces a failure, `buildAndPush` issues no external command at all and
returns exactly that first failure as its structured error. -/
theorem c5_validation_before_commands (cfg : Config) (v : String) (dryRun : Bool)
    (exec : Cmd → Option String) (e : String)
    (h : specFirstValidationError cfg v = some e) :
    buildAndPush cfg v dryRun exec = ([], failResp e, none) := by
  cases h1 : validateImageName cfg.image with
  | some err =>
    simp [specFirstValidationError, h1] at h
    simp [buildAndPush, h1, h]
  | none =>
  cases h2 : validateRegistry cfg.registry with
  | some err =>
    simp [specFirstValidationError, h1, h2] at h
    simp [buildAndPush, h1, h2, h]
  | none =>
  cases h3 : validatePath cfg.dockerfile with
  | some err =>
    simp [specFirstValidationError, h1, h2, h3] at h
    simp [buildAndPush, h1, h2, h3, h]
  | none =>
  cases h4 : validatePath cfg.context with
  | some err =>
    simp [specFirstValidationError, h1, h2, h3, h4] at h
    simp [buildAndPush, h1, h2, h3, h4, h]
  | none =>
  cases h5 : firstKeyError validateBuildArgKey cfg.buildArgs with
  | some ke =>
    simp [specFirstValidationError, h1, h2, h3, h4, h5] at h
    simp [buildAndPush, h1, h2, h3, h4, h5, h]
  | none =>
  cases h6 : firstKeyError validateLabelKey cfg.labels with
  | some ke =>
    simp [specFirstValidationError, h1, h2, h3, h4, h5, h6] at h
    simp [buildAndPush, h1, h2, h3, h4, h5, h6, h]
  | none =>
  cases h7 : tagResolution cfg v with
  | error e2 =>
    simp [specFirstValidationError, h1, h2, h3, h4, h5, h6, h7] at h
    simp [buildAndPush, h1, h2, h3, h4, h5, h6, h7, h]
  | ok l =>
    simp [specFirstValidationError, h1, h2, h3, h4, h5, h6, h7] at h

/-- C5 witness: an empty image name is reported with no command issued. -/
theorem c5_validation_before_commands_witness :
    buildAndPush cfgBadImage "v1.2.3" false execOK =
      ([], failResp "invalid image configuration: image name cannot be empty", none) :=
  c5_validation_before_commands cfgBadImage "v1.2.3" false execOK
    "invalid image configuration: image name cannot be empty" (by decide)

/-! ### C10: dry-run mode -/

/-- C10: in dry-run mode the executor is never invoked (the trace is empty
and the result does not depend on the executor), full validation still
runs first and yields the same failure it would in a real run, and a
successful dry run previews the unqualified image name, the resolved tag
list with empty results already dropped, and the registry. -/
theorem c10_dry_run :
    (∀ (cfg : Config) (v : String) (exec : Cmd → Option String),
      buildAndPush cfg v true exec = ([], specDryRunResponse cfg v, none)) ∧
    buildAndPush cfgDefault "v1.2.3" true execOK =
      ([], ⟨true, "Would build and push Docker image", "",
        Outputs.preview "myorg/myapp" ["1.2.3", "latest"] "docker.io"⟩, none) ∧
    buildAndPush cfgBadImage "v1.2.3" true execOK =
      ([], failResp "invalid image configuration: image name cannot be empty", none) := by
  refine ⟨fun cfg v exec => ?_, by decide, by decide⟩
  cases h1 : validateImageName cfg.image with
  | some err => simp [buildAndPush, specDryRunResponse, specFirstValidationError, h1]
  | none =>
  cases h2 : validateRegistry cfg.registry with
  | some err => simp [buildAndPush, specDryRunResponse, specFirstValidationError, h1, h2]
  | none =>
  cases h3 : validatePath cfg.dockerfile with
  | some err => simp [buildAndPush, specDryRunResponse, specFirstValidationError, h1, h2, h3]
  | none =>
  cases h4 : validatePath cfg.context with
  | some err =>
    simp [buildAndPush, specDryRunResponse, specFirstValidationError, h1, h2, h3, h4]
  | none =>
  cases h5 : firstKeyError validateBuildArgKey cfg.buildArgs with
  | some ke =>
    simp [buildAndPush, specDryRunResponse, specFirstValidationError, h1, h2, h3, h4, h5]
  | none =>
  cases h6 : firstKeyError validateLabelKey cfg.labels with
  | some ke =>
    simp [buildAndPush, specDryRunResponse, specFirstValidationError, h1, h2, h3, h4, h5, h6]
  | none =>
  cases h7 : tagResolution cfg v with
  | error e2 =>
    simp [buildAndPush, specDryRunResponse, specFirstValidationError, h1, h2, h3, h4, h5,
      h6, h7]
  | ok l =>
    simp [buildAndPush, specDryRunResponse, specFirstValidationError, specResolvedTags,
      h1, h2, h3, h4, h5, h6, h7]

/-! ### C2: the login, build, push pipeline -/

/-- C2: on a valid configuration the issued commands are exactly the
maximal successful prefix (first failure included) of the planned
sequence — optional login when both credentials are non-empty, then
build, then one push per resolved tag in tag order when the push flag is
set — so a failure of any step aborts all remaining steps.  Concretely,
image `myorg/myapp` with push on, version `v1.2.3` and no credentials
yields exactly one build (tagging `myorg/myapp:1.2.3` and
`myorg/myapp:latest`) followed by the two pushes in tag order and no
login; and with credentials and a failing login, build and push never run
and the response reports the login failure with the underlying error. -/
theorem c2_pipeline_sequence :
    (∀ (cfg : Config) (v : String) (exec : Cmd → Option String),
      specFirstValidationError cfg v = none →
      (buildAndPush cfg v false exec).1 = runSeq exec (plannedCmds cfg v)) ∧
    (buildAndPush cfgDefault "v1.2.3" false execOK).1 =
      [buildCmd cfgDefault ["myorg/myapp:1.2.3", "myorg/myapp:latest"] "v1.2.3",
       pushCmd "myorg/myapp:1.2.3", pushCmd "myorg/myapp:latest"] ∧
    ((buildAndPush cfgDefault "v1.2.3" false execOK).1.filter
        (fun c => c.args.headD "" == "login")).length = 0 ∧
    buildAndPush cfgCreds "v1.2.3" false execLoginFail =
      ([loginCmd cfgCreds], failResp "failed to login to registry: mock error", none) := by
  refine ⟨fun cfg v exec h => ?_, by decide, by decide, by decide⟩
  obtain ⟨h1, h2, h3, h4, h5, h6, h7⟩ := sfve_none_parts cfg v h
  simp only [buildAndPush, h1, h2, h3, h4, h5, h6, h7, Bool.false_eq_true, if_false]
  rw [execPhase_trace]
  simp [plannedCmds, specImageNames]

/-- C2 witness: the sequencing equation at the concrete failing-login
scenario. -/
theorem c2_pipeline_sequence_witness :
    (buildAndPush cfgCreds "v1.2.3" false execLoginFail).1 =
      runSeq execLoginFail (plannedCmds cfgCreds "v1.2.3") :=
  c2_pipeline_sequence.1 cfgCreds "v1.2.3" execLoginFail (by decide)

/-! ### C9: structured responses, nil Go error -/

theorem execPhase_result_shape (cfg : Config) (v : String) (exec : Cmd → Option String)
    (rts ins : List String) :
    (execPhase cfg v exec rts ins).2.2 = none ∧
    ((execPhase cfg v exec rts ins).2.1.success = false →
      (execPhase cfg v exec rts ins).2.1.error ≠ "") := by
  by_cases hcred : cfg.username ≠ "" ∧ cfg.password ≠ ""
  · cases hl : exec (loginCmd cfg) with
    | some e =>
      refine ⟨by simp [execPhase, hcred, hl], fun _ => ?_⟩
      have he : (execPhase cfg v exec rts ins).2.1.error =
          "failed to login to registry: " ++ e := by
        simp [execPhase, hcred, hl, failResp]
      rw [he]
      exact strAppendNeLeft _ _ (by decide)
    | none =>
      cases hb : exec (buildCmd cfg ins v) with
      | some e =>
        refine ⟨by simp [execPhase, hcred, hl, hb], fun _ => ?_⟩
        have he : (execPhase cfg v exec rts ins).2.1.error =
            "failed to build image: " ++ e := by
          simp [execPhase, hcred, hl, hb, failResp]
        rw [he]
        exact strAppendNeLeft _ _ (by decide)
      | none =>
        by_cases hp : cfg.push
        · cases hpr : (pushLoop exec ins).2 with
          | some e =>
            refine ⟨by simp [execPhase, hcred, hl, hb, hp, hpr], fun _ => ?_⟩
            have he : (execPhase cfg v exec rts ins).2.1.error = e := by
              simp [execPhase, hcred, hl, hb, hp, hpr, failResp]
            rw [he]
            exact pushLoop_err_ne exec ins e hpr
          | none =>
            refine ⟨by simp [execPhase, hcred, hl, hb, hp, hpr], fun hf => ?_⟩
            have hs : (execPhase cfg v exec rts ins).2.1.success = true := by
              simp [execPhase, hcred, hl, hb, hp, hpr]
            rw [hs] at hf
            exact Bool.noConfusion hf
        · refine ⟨by simp [execPhase, hcred, hl, hb, hp], fun hf => ?_⟩
          have hs : (execPhase cfg v exec rts ins).2.1.success = true := by
            simp [execPhase, hcred, hl, hb, hp]
          rw [hs] at hf
          exact Bool.noConfusion hf
  · cases hb : exec (buildCmd cfg ins v) with
    | some e =>
      refine ⟨by simp [execPhase, hcred, hb], fun _ => ?_⟩
      have he : (execPhase cfg v exec rts ins).2.1.error =
          "failed to build image: " ++ e := by
        simp [execPhase, hcred, hb, failResp]
      rw [he]
      exact strAppendNeLeft _ _ (by decide)
    | none =>
      by_cases hp : cfg.push
      · cases hpr : (pushLoop exec ins).2 with
        | some e =>
          refine ⟨by simp [execPhase, hcred, hb, hp, hpr], fun _ => ?_⟩
          have he : (execPhase cfg v exec rts ins).2.1.error = e := by
            simp [execPhase, hcred, hb, hp, hpr, failResp]
          rw [he]
          exact pushLoop_err_ne exec ins e hpr
        | none =>
          refine ⟨by simp [execPhase, hcred, hb, hp, hpr], fun hf => ?_⟩
          have hs : (execPhase cfg v exec rts ins).2.1.success = true := by
            simp [execPhase, hcred, hb, hp, hpr]
          rw [hs] at hf
          exact Bool.noConfusion hf
      · refine ⟨by simp [execPhase, hcred, hb, hp], fun hf => ?_⟩
        have hs : (execPhase cfg v exec rts ins).2.1.success = true := by
          simp [execPhase, hcred, hb, hp]
        rw [hs] at hf
        exact Bool.noConfusion hf

theorem buildAndPush_result_shape (cfg : Config) (v : String) (dr : Bool)
    (exec : Cmd → Option String) :
    (buildAndPush cfg v dr exec).2.2 = none ∧
    ((buildAndPush cfg v dr exec).2.1.success = false →
      (buildAndPush cfg v dr exec).2.1.error ≠ "") := by
  cases h1 : validateImageName cfg.image with
  | some err =>
    refine ⟨by simp [buildAndPush, h1], fun _ => ?_⟩
    have he : (buildAndPush cfg v dr exec).2.1.error =
        "invalid image configuration: " ++ err := by simp [buildAndPush, h1, failResp]
    rw [he]
    exact strAppendNeLeft _ _ (by decide)
  | none =>
  cases h2 : validateRegistry cfg.registry with
  | some err =>
    refine ⟨by simp [buildAndPush, h1, h2], fun _ => ?_⟩
    have he : (buildAndPush cfg v dr exec).2.1.error =
        "invalid registry configuration: " ++ err := by simp [buildAndPush, h1, h2, failResp]
    rw [he]
    exact strAppendNeLeft _ _ (by decide)
  | none =>
  cases h3 : validatePath cfg.dockerfile with
  | some err =>
    refine ⟨by simp [buildAndPush, h1, h2, h3], fun _ => ?_⟩
    have he : (buildAndPush cfg v dr exec).2.1.error =
        "invalid dockerfile path: " ++ err := by simp [buildAndPush, h1, h2, h3, failResp]
    rw [he]
    exact strAppendNeLeft _ _ (by decide)
  | none =>
  cases h4 : validatePath cfg.context with
  | some err =>
    refine ⟨by simp [buildAndPush, h1, h2, h3, h4], fun _ => ?_⟩
    have he : (buildAndPush cfg v dr exec).2.1.error =
        "invalid build context path: " ++ err := by
      simp [buildAndPush, h1, h2, h3, h4, failResp]
    rw [he]
    exact strAppendNeLeft _ _ (by decide)
  | none =>
  cases h5 : firstKeyError validateBuildArgKey cfg.buildArgs with
  | some ke =>
    refine ⟨by simp [buildAndPush, h1, h2, h3, h4, h5], fun _ => ?_⟩
    have he : (buildAndPush cfg v dr exec).2.1.error =
        "invalid build arg key \x27" ++ ke.1 ++ "\x27: " ++ ke.2 := by
      simp [buildAndPush, h1, h2, h3, h4, h5, failResp]
    rw [he]
    exact strAppendNeLeft _ _
      (strAppendNeLeft _ _ (strAppendNeLeft "invalid build arg key \x27" ke.1 (by decide)))
  | none =>
  cases h6 : firstKeyError validateLabelKey cfg.labels with
  | some ke =>
    refine ⟨by simp [buildAndPush, h1, h2, h3, h4, h5, h6], fun _ => ?_⟩
    have he : (buildAndPush cfg v dr exec).2.1.error =
        "invalid label key \x27" ++ ke.1 ++ "\x27: " ++ ke.2 := by
      simp [buildAndPush, h1, h2, h3, h4, h5, h6, failResp]
    rw [he]
    exact strAppendNeLeft _ _
      (strAppendNeLeft _ _ (strAppendNeLeft "invalid label key \x27" ke.1 (by decide)))
  | none =>
  cases h7 : tagResolution cfg v with
  | error e2 =>
    refine ⟨by simp [buildAndPush, h1, h2, h3, h4, h5, h6, h7], fun _ => ?_⟩
    have he : (buildAndPush cfg v dr exec).2.1.error = e2 := by
      simp [buildAndPush, h1, h2, h3, h4, h5, h6, h7, failResp]
    rw [he]
    have h7e : resolveTagsE (stripV v) (versionParts v).1 (versionParts v).2.1
        (versionParts v).2.2 (if cfg.tags = [] then [phVersion, "latest"] else cfg.tags) =
        .error e2 := h7
    exact resolveTagsE_err_ne _ _ _ _ _ e2 h7e
  | ok l =>
    cases dr with
    | true =>
      refine ⟨by simp [buildAndPush, h1, h2, h3, h4, h5, h6, h7], fun hf => ?_⟩
      have hs : (buildAndPush cfg v true exec).2.1.success = true := by
        simp [buildAndPush, h1, h2, h3, h4, h5, h6, h7]
      rw [hs] at hf
      exact Bool.noConfusion hf
    | false =>
      have hbp : buildAndPush cfg v false exec =
          execPhase cfg v exec l (l.map (imageRefFor cfg)) := by
        simp [buildAndPush, h1, h2, h3, h4, h5, h6, h7]
      rw [hbp]
      exact execPhase_result_shape cfg v exec l (l.map (imageRefFor cfg))

/-- C9: for every hook, configuration, release version, dry-run flag and
executor, `Execute` returns a nil Go error and a structured response; a
failed response always carries a non-empty error message. -/
theorem c9_structured_results (hook : Hook) (cfg : Config) (v : String) (dr : Bool)
    (exec : Cmd → Option String) :
    (execute hook cfg v dr exec).2.2 = none ∧
    ((execute hook cfg v dr exec).2.1.success = false →
      (execute hook cfg v dr exec).2.1.error ≠ "") := by
  cases hook with
  | other name =>
    refine ⟨rfl, fun hf => ?_⟩
    exact Bool.noConfusion hf
  | postPublish => exact buildAndPush_result_shape cfg v dr exec

/-- C9 witness: at a concrete failing configuration, the Go error is nil
and the error message is non-empty. -/
theorem c9_structured_results_witness :
    (execute Hook.postPublish cfgBadImage "v1.2.3" false execOK).2.2 = none ∧
    (execute Hook.postPublish cfgBadImage "v1.2.3" false execOK).2.1.error ≠ "" :=
  ⟨(c9_structured_results Hook.postPublish cfgBadImage "v1.2.3" false execOK).1,
   (c9_structured_results Hook.postPublish cfgBadImage "v1.2.3" false execOK).2 (by decide)⟩

end DockerSpec
